import Mathlib

/-!
Shallow embedding of the srsRAN scheduler core (UE context, PDSCH resource
allocation limits, and the SRB0/fallback scheduling policy) together with
theorems checking the natural-language specification against the code.

Source files embedded:
* `lib/scheduler/ue_context/ue.cpp`
* `lib/scheduler/support/pdsch/pdsch_resource_allocation.h`
* `tests/unittests/scheduler/ue_scheduling/srb0_scheduler_test.cpp`

Components of the repository that the above code calls but whose sources are
not available here (the `slot_point` arithmetic, the DL logical channel
manager allocation helpers, and the `ue_srb0_scheduler` implementation) are
modelled from the specification; each such definition carries a doc comment
beginning with `Modelled from the spec:`.
-/

namespace SrsranModel

/-! ## CRB intervals and PDSCH resource-allocation limits
Embedding of `pdsch_helper::get_ra_crb_limits` from
`lib/scheduler/support/pdsch/pdsch_resource_allocation.h`. -/

/-- Embedding of `crb_interval` (an `interval<unsigned>` of common resource
blocks): a half-open interval `[start, stop)` of CRB indices. -/
structure crb_interval where
  start : Nat
  stop : Nat
  deriving DecidableEq, Repr

/-- Embedding of `interval::length()`: `stop - start` (unsigned). -/
def crb_interval.length (i : crb_interval) : Nat :=
  i.stop - i.start

/-- Embedding of `interval::resize(new_length)`: keeps `start`, sets
`stop = start + new_length`. -/
def crb_interval.resize (i : crb_interval) (new_length : Nat) : crb_interval :=
  ⟨i.start, i.start + new_length⟩

/-- Embedding of `dci_dl_format` (only the distinction between fallback format
1_0 and the non-fallback formats matters to `get_ra_crb_limits`). -/
inductive dci_dl_format where
  | f1_0
  | f1_1
  deriving DecidableEq, Repr

/-- Embedding of the part of `bwp_downlink_common` read by
`get_ra_crb_limits`: the BWP generic CRB interval and, for the initial BWP,
the optional CORESET#0 CRB interval (`pdcch_common.coreset0->coreset0_crbs()`). -/
structure bwp_downlink_common where
  crbs : crb_interval
  coreset0_crbs : Option crb_interval
  deriving DecidableEq, Repr

/-- Embedding of the part of `search_space_configuration` read by
`get_ra_crb_limits`: whether the search space is a common search space. -/
structure search_space_configuration where
  common_search_space : Bool
  deriving DecidableEq, Repr

/-- Embedding of the part of `coreset_configuration` read by
`get_ra_crb_limits`: the CORESET start CRB (`get_coreset_start_crb()`). -/
structure coreset_configuration where
  coreset_start_crb : Nat
  deriving DecidableEq, Repr

/-- Embedding of `pdsch_helper::get_ra_crb_limits` from
`pdsch_resource_allocation.h`. -/
def get_ra_crb_limits (dci_fmt : dci_dl_format) (init_dl_bwp active_dl_bwp : bwp_downlink_common)
    (ss_cfg : search_space_configuration) (cs_cfg : coreset_configuration) : crb_interval :=
  let crbs := active_dl_bwp.crbs
  if dci_fmt = dci_dl_format.f1_0 ∧ ss_cfg.common_search_space = true then
    let crbs' : crb_interval := ⟨cs_cfg.coreset_start_crb, crbs.stop⟩
    match init_dl_bwp.coreset0_crbs with
    | some c0 => crbs'.resize (min crbs'.length c0.length)
    | none => crbs'.resize (min crbs'.length init_dl_bwp.crbs.length)
  else
    crbs

/-- Formalisation of the claim's own wording about `get_ra_crb_limits`, for
comparison with the code: in the fallback/common case the returned interval
starts at the CORESET start CRB and its length is clipped (reduced if needed)
to the minimum of the *active-BWP width* and the coreset0 width (else the
initial-BWP width). -/
def get_ra_crb_limits_claimed (dci_fmt : dci_dl_format)
    (init_dl_bwp active_dl_bwp : bwp_downlink_common)
    (ss_cfg : search_space_configuration) (cs_cfg : coreset_configuration) : crb_interval :=
  if dci_fmt = dci_dl_format.f1_0 ∧ ss_cfg.common_search_space = true then
    let s := cs_cfg.coreset_start_crb
    let origLen := active_dl_bwp.crbs.stop - s
    let widthBound :=
      match init_dl_bwp.coreset0_crbs with
      | some c0 => min active_dl_bwp.crbs.length c0.length
      | none => min active_dl_bwp.crbs.length init_dl_bwp.crbs.length
    ⟨s, s + min origLen widthBound⟩
  else
    active_dl_bwp.crbs

/-! ## Slot points and the per-slot stale-allocation cleanup
The `slot_point` type itself is not part of the available sources; it is
modelled from the spec (§3: slot arithmetic is modulo a large wrap period and
integer differences handle wraparound within ± half the wrap period). The
cleanup logic is embedded from `ue::slot_indication` in
`lib/scheduler/ue_context/ue.cpp`. -/

/-- Modelled from the spec: the integer difference of two slot counters
(each in `[0, period)`), wrap-around-safe: the unique representative of
`a - b` modulo `period` lying in `[-period/2, period/2)` (for even `period`).
This models `slot_point::operator-`. -/
def slot_dist (period a b : Nat) : Int :=
  let d : Int := ((a : Int) - (b : Int)) % (period : Int)
  if 2 * d ≥ (period : Int) then d - (period : Int) else d

/-- Embedding of C++ `static_cast<unsigned>` applied to an `int`:
reduction modulo `2^32` into `[0, 2^32)`. -/
def to_unsigned32 (d : Int) : Nat :=
  (d % (2 ^ 32 : Int)).toNat

/-- Embedding of the two per-cell fields that `ue::slot_indication` updates:
`ue_cell::last_pdsch_allocated_slot` and `ue_cell::last_pusch_allocated_slot`
(an invalid `slot_point` is `none`). -/
structure ue_cell_alloc_state where
  last_pdsch_allocated_slot : Option Nat
  last_pusch_allocated_slot : Option Nat
  deriving DecidableEq, Repr

/-- Embedding of the body of the per-cell loop of `ue::slot_indication`
(ue.cpp lines 58-74): clears `last_pdsch_allocated_slot` when
`static_cast<unsigned>(sl_tx - last) > SCHEDULER_MAX_K0` and
`last_pusch_allocated_slot` when `sl_tx - last > (int)SCHEDULER_MAX_K2`.
The lookahead constants are parameters (`maxK0`, `maxK2`). -/
def ue_cell_slot_indication (period maxK0 maxK2 sl_tx : Nat)
    (st : ue_cell_alloc_state) : ue_cell_alloc_state :=
  let st1 :=
    match st.last_pdsch_allocated_slot with
    | none => st
    | some last =>
      if to_unsigned32 (slot_dist period sl_tx last) > maxK0 then
        { st with last_pdsch_allocated_slot := none }
      else
        st
  match st1.last_pusch_allocated_slot with
  | none => st1
  | some last =>
    if slot_dist period sl_tx last > (maxK2 : Int) then
      { st1 with last_pusch_allocated_slot := none }
    else
      st1

/-- Embedding of `ue::slot_indication` over all configured UE cells (the
trailing timing-advance and DRX ticks do not touch these fields). -/
def ue_slot_indication (period maxK0 maxK2 sl_tx : Nat)
    (cells : List ue_cell_alloc_state) : List ue_cell_alloc_state :=
  cells.map (ue_cell_slot_indication period maxK0 maxK2 sl_tx)

/-! ## DL logical channel manager and fallback transport-block building
The branch structure of `ue::build_dl_fallback_transport_block_info` is
embedded from `lib/scheduler/ue_context/ue.cpp` (lines 218-230). The helper
functions it calls (`allocate_ue_con_res_id_mac_ce`, `allocate_mac_sdus`,
`dl_logical_channel_manager::pending_bytes/has_pending_bytes`) live in
`dl_logical_channel_manager.{h,cpp}`, which is not among the available
sources; they are modelled from the spec (§4.4). -/

/-- LCID of SRB0, the non-segmentable bootstrap signalling channel. -/
def LCID_SRB0 : Nat := 0

/-- LCID of SRB1. -/
def LCID_SRB1 : Nat := 1

/-- LCID value tagging the UE contention-resolution-identity MAC CE subPDU in
the built transport block. -/
def LCID_UE_CON_RES_ID : Nat := 62

/-- Modelled from the spec: state of the DL logical channel manager —
a per-channel pending-byte counter (§4.4) and whether the mandatory
contention-resolution MAC CE is still pending. -/
structure dl_logical_channel_manager where
  pending : Nat → Nat
  con_res_id_pending : Bool

/-- Embedding of `dl_logical_channel_manager::pending_bytes(lcid)`. -/
def dl_logical_channel_manager.pending_bytes (mgr : dl_logical_channel_manager)
    (lcid : Nat) : Nat :=
  mgr.pending lcid

/-- Embedding of `dl_logical_channel_manager::has_pending_bytes(lcid)`. -/
def dl_logical_channel_manager.has_pending_bytes (mgr : dl_logical_channel_manager)
    (lcid : Nat) : Bool :=
  mgr.pending lcid > 0

/-- Embedding of `dl_msg_tb_info`: the list of subPDUs packed in one
transport block, each a `(lcid, bytes)` pair. -/
structure dl_msg_tb_info where
  subpdus : List (Nat × Nat)
  deriving DecidableEq, Repr

/-- Modelled from the spec: total byte size (MAC CE payload plus subheader)
of the mandatory UE contention-resolution-identity MAC CE. -/
def ue_con_res_id_ce_size : Nat := 7

/-- Modelled from the spec: `allocate_ue_con_res_id_mac_ce` serves the
mandatory contention-resolution MAC CE first, within the byte budget (§4.4):
if the CE is pending and fits, it is appended to the transport block and its
size is returned; otherwise nothing is allocated. Returns
`(allocated bytes, updated tb_info, updated manager)`. -/
def allocate_ue_con_res_id_mac_ce (tb : dl_msg_tb_info)
    (mgr : dl_logical_channel_manager) (budget : Nat) :
    Nat × dl_msg_tb_info × dl_logical_channel_manager :=
  if mgr.con_res_id_pending = true ∧ ue_con_res_id_ce_size ≤ budget then
    (ue_con_res_id_ce_size, ⟨tb.subpdus ++ [(LCID_UE_CON_RES_ID, ue_con_res_id_ce_size)]⟩,
      { mgr with con_res_id_pending := false })
  else
    (0, tb, mgr)

/-- Modelled from the spec: `allocate_mac_sdus` serves data of one logical
channel, consuming from the per-channel pending counter and from the
remaining byte budget (§4.4). Returns
`(allocated bytes, updated tb_info, updated manager)`. -/
def allocate_mac_sdus (tb : dl_msg_tb_info) (mgr : dl_logical_channel_manager)
    (budget lcid : Nat) : Nat × dl_msg_tb_info × dl_logical_channel_manager :=
  let b := min (mgr.pending lcid) budget
  if b = 0 then
    (0, tb, mgr)
  else
    (b, ⟨tb.subpdus ++ [(lcid, b)]⟩,
      { mgr with pending := fun l => if l = lcid then mgr.pending lcid - b else mgr.pending l })

/-- Embedding of `ue::build_dl_fallback_transport_block_info` (ue.cpp lines
218-230): first the contention-resolution MAC CE; then, since the SRB0 PDU
cannot be segmented, SRB0 is served only when the whole pending SRB0 PDU fits
in the remaining budget (in which case the function returns), else SRB1 is
served. Returns `(total subPDU bytes, tb_info, updated manager)`. -/
def build_dl_fallback_transport_block_info (mgr : dl_logical_channel_manager)
    (tb : dl_msg_tb_info) (tb_size_bytes : Nat) :
    Nat × dl_msg_tb_info × dl_logical_channel_manager :=
  let r0 := allocate_ue_con_res_id_mac_ce tb mgr tb_size_bytes
  let total0 := r0.1
  let tb0 := r0.2.1
  let mgr0 := r0.2.2
  if mgr0.has_pending_bytes LCID_SRB0 = true ∧
      tb_size_bytes - total0 ≥ mgr0.pending_bytes LCID_SRB0 then
    let r1 := allocate_mac_sdus tb0 mgr0 (tb_size_bytes - total0) LCID_SRB0
    (total0 + r1.1, r1.2.1, r1.2.2)
  else
    let r1 := allocate_mac_sdus tb0 mgr0 (tb_size_bytes - total0) LCID_SRB1
    (total0 + r1.1, r1.2.1, r1.2.2)

/-! ## UE pending UL bytes
Embedding of `ue::pending_ul_newtx_bytes` (ue.cpp lines 173-191). -/

/-- Embedding of `ue::pending_ul_newtx_bytes`'s `SR_GRANT_BYTES` constant. -/
def SR_GRANT_BYTES : Nat := 512

/-- Embedding of the per-cell loop of `ue::pending_ul_newtx_bytes`: for each
UE cell, subtract `min(pending, harq_bytes)` from the running pending count,
breaking out early once it reaches zero. -/
def subtract_harq_ul_bytes : List Nat → Nat → Nat
  | [], p => p
  | h :: rest, p =>
    if p = 0 then p else subtract_harq_ul_bytes rest (p - min p h)

/-- Embedding of the inputs of `ue::pending_ul_newtx_bytes`: the aggregate UL
pending bytes reported by the UL logical channel manager, the per-cell
`harqs.total_ul_bytes_waiting_ack()` values, and the pending-SR flag. -/
structure ue_ul_state where
  ul_pending_total : Nat
  harq_ul_bytes_waiting_ack : List Nat
  has_pending_sr : Bool
  deriving DecidableEq, Repr

/-- Embedding of `ue::pending_ul_newtx_bytes` (ue.cpp lines 173-191). -/
def pending_ul_newtx_bytes (st : ue_ul_state) : Nat :=
  let p := subtract_harq_ul_bytes st.harq_ul_bytes_waiting_ack st.ul_pending_total
  if p > 0 then p else if st.has_pending_sr = true then SR_GRANT_BYTES else 0

/-! ## UE cell list reconfiguration
Embedding of `ue::handle_reconfiguration_request` (ue.cpp lines 107-153).
The per-cell `ue_cell` state and its in-place reconfiguration live in
`ue_cell.{h,cpp}` (not among the available sources) and are modelled from the
spec (§3: per-UE-cell state, reconfigured in place). -/

/-- Embedding of one entry of `ue_configuration`'s cell list: the DU cell
index it refers to, plus the rest of the serving-cell configuration
(abstracted as an opaque payload). -/
structure ue_cell_cfg where
  cell_index : Nat
  cfg_data : Nat
  deriving DecidableEq, Repr

/-- Embedding of the part of `ue_configuration` used by
`ue::handle_reconfiguration_request`: the list of configured serving cells
(`nof_cells()` is its length, `contains(i)` membership of `i` among the cell
indices). -/
structure ue_configuration where
  cells : List ue_cell_cfg
  deriving DecidableEq, Repr

/-- Embedding of `ue_configuration::contains(du_cell_index)`. -/
def ue_configuration.contains_cell (cfg : ue_configuration) (i : Nat) : Bool :=
  cfg.cells.any (fun c => c.cell_index = i)

/-- Modelled from the spec: the per-(UE, serving-cell) state (§3); the
configuration payload last applied to it is what reconfiguration updates. -/
structure ue_cell where
  cell_index : Nat
  active_cfg : Nat
  deriving DecidableEq, Repr

/-- Embedding of `ue_cell` construction from a cell configuration
(`std::make_unique<ue_cell>(...)` in ue.cpp line 135). -/
def ue_cell.create (c : ue_cell_cfg) : ue_cell :=
  ⟨c.cell_index, c.cfg_data⟩

/-- Modelled from the spec: `ue_cell::handle_reconfiguration_request`
reconfigures the serving cell in place (§3), replacing the applied
configuration payload. -/
def ue_cell.reconfigure (inst : ue_cell) (c : ue_cell_cfg) : ue_cell :=
  { inst with active_cfg := c.cfg_data }

/-- Embedding of one iteration of the creation/reconfiguration loop of
`ue::handle_reconfiguration_request` (ue.cpp lines 131-144): the cell slot at
the configured DU cell index is created if absent, else reconfigured in
place; all other slots are untouched. -/
def apply_cell_cfg (cells : Nat → Option ue_cell) (c : ue_cell_cfg) :
    Nat → Option ue_cell :=
  fun i =>
    if i = c.cell_index then
      match cells c.cell_index with
      | none => some (ue_cell.create c)
      | some inst => some (inst.reconfigure c)
    else
      cells i

/-- Embedding of `ue::handle_reconfiguration_request` restricted to its
effect on `ue_du_cells` (ue.cpp lines 107-153): asserts that the new
configuration has at least one cell (`none` models the assertion failure);
the loop over previously created cells absent from the new configuration is
an explicit no-op in the source (`// TODO: Handle SCell deletions.`); then
every configured cell is created or reconfigured in place. -/
def handle_reconfiguration_request (cfg : ue_configuration)
    (cells : Nat → Option ue_cell) : Option (Nat → Option ue_cell) :=
  if cfg.cells.length = 0 then
    none
  else
    some (cfg.cells.foldl apply_cell_cfg cells)

/-- Embedding of the `ue` constructor's configuration step (ue.cpp line 47):
UE creation applies `handle_reconfiguration_request` to an empty cell list. -/
def ue_create_cells (cfg : ue_configuration) : Option (Nat → Option ue_cell) :=
  handle_reconfiguration_request cfg (fun _ => none)

/-! ## SRB0 scheduler: forward slot selection
The `ue_srb0_scheduler` implementation is not among the available sources; the
forward ("ahead-of-slot") allocation-slot selection is modelled from the spec
(§4.5). The test helper `get_next_candidate_alloc_slot`, which computes the
slot at which the allocation is expected, is embedded from
`tests/unittests/scheduler/ue_scheduling/srb0_scheduler_test.cpp`
(lines 549-588). Slots are modelled as plain naturals here (the scenarios stay
far from the wrap period). -/

/-- Embedding of the per-cell duplex/slot-format oracle consumed by the
scheduler and the test (`cell_configuration::is_dl_enabled/is_ul_enabled` and
`csi_helper::is_csi_rs_slot`). -/
structure cell_slot_cfg where
  dl_enabled : Nat → Bool
  ul_enabled : Nat → Bool
  csi_rs_slot : Nat → Bool

/-- Embedding of the test's `dci_1_0_k1_values` (srb0_scheduler_test.cpp line
575): the PDSCH-to-HARQ acknowledgment timing offsets usable with DCI 1_0. -/
def dci_1_0_k1_values : List Nat := [4, 5, 6, 7, 8]

/-- Embedding of the test's `k1_falls_on_ul` lambda (srb0_scheduler_test.cpp
lines 574-579): some k1 offset lands the PUCCH on an uplink-capable slot. -/
def k1_falls_on_ul (cfg : cell_slot_cfg) (pdsch_slot : Nat) : Bool :=
  dci_1_0_k1_values.any (fun k1 => cfg.ul_enabled (pdsch_slot + k1))

/-- Bounded linear search for the first slot at or after `s` satisfying `p`
(`fuel` bounds the search so that every loop of the embedded code is total). -/
def find_from (p : Nat → Bool) : Nat → Nat → Option Nat
  | _, 0 => none
  | s, fuel + 1 => if p s = true then some s else find_from p (s + 1) fuel

/-- Embedding of the test's `get_next_dl_slot` (srb0_scheduler_test.cpp lines
549-555): the next downlink-capable slot at or after `sl`. -/
def get_next_dl_slot (cfg : cell_slot_cfg) (fuel sl : Nat) : Option Nat :=
  find_from cfg.dl_enabled sl fuel

/-- Eligibility condition of the while loop of `get_next_candidate_alloc_slot`
(srb0_scheduler_test.cpp lines 582-585): some k1 lands the PUCCH on an UL
slot, the slot is downlink-capable, and it is not a CSI-RS slot. -/
def srb0_slot_eligible (cfg : cell_slot_cfg) (s : Nat) : Bool :=
  k1_falls_on_ul cfg s && cfg.dl_enabled s && !cfg.csi_rs_slot s

/-- Embedding of the do-while loop of `get_next_candidate_alloc_slot`
(srb0_scheduler_test.cpp lines 567-572): advance one slot at a time, counting
downlink-capable slots, until `target` of them (strictly after the start)
have been seen; returns the slot at which the count is reached. -/
def busy_advance (cfg : cell_slot_cfg) : Nat → Nat → Nat → Nat → Option Nat
  | _, _, _, 0 => none
  | s, cnt, target, fuel + 1 =>
    let s' := s + 1
    let cnt' := if cfg.dl_enabled s' = true then cnt + 1 else cnt
    if cnt' = target then some s' else busy_advance cfg s' cnt' target fuel

/-- Embedding of the test's `get_next_candidate_alloc_slot`
(srb0_scheduler_test.cpp lines 558-588): starting from `sched_slot`, skip
past `nof_slot_grid_occupancy` downlink slots (the busy window), then advance
to the first slot that is downlink-capable, not a CSI-RS slot, and whose
acknowledgment can land on an uplink slot. -/
def get_next_candidate_alloc_slot (cfg : cell_slot_cfg) (fuel sched_slot
    nof_slot_grid_occupancy : Nat) : Option Nat :=
  if nof_slot_grid_occupancy = 0 then
    some sched_slot
  else
    match busy_advance cfg sched_slot 0 nof_slot_grid_occupancy fuel with
    | none => none
    | some s => find_from (fun t => srb0_slot_eligible cfg t) s fuel

/-- Number of downlink-capable slots in the window `[t, t + len)`. -/
def dl_count (cfg : cell_slot_cfg) (t len : Nat) : Nat :=
  (List.range len).countP (fun i => cfg.dl_enabled (t + i))

/-- Busy-window membership in the forward-scheduling scenario: the grid is
fully occupied at the first `nof` downlink-capable slots at or after the
buffer-update slot `t` (srb0_scheduler_test.cpp lines 626-639), so slot `s`
is busy exactly when it is a downlink slot at or after `t` preceded by fewer
than `nof` downlink slots in `[t, s)`. -/
def grid_busy (cfg : cell_slot_cfg) (t nof s : Nat) : Bool :=
  decide (t ≤ s) && cfg.dl_enabled s && decide (dl_count cfg t (s - t) < nof)

/-- Modelled from the spec: the SRB0 scheduler's forward slot selection
(§4.5) — starting at the earliest candidate slot, advance the candidate past
slots where the grid is full or that are not protocol-eligible (must be
downlink-capable, not excluded by the slot format, and allow the
acknowledgment to land on an uplink-capable slot), up to the lookahead bound
`fuel`; the allocation is committed at the slot found, and at no other. -/
def srb0_sched_alloc_slot (cfg : cell_slot_cfg) (t nof fuel : Nat) : Option Nat :=
  find_from (fun s => !grid_busy cfg t nof s && srb0_slot_eligible cfg s) t fuel

/-- Modelled from the spec: on successful allocation at PDSCH slot `s` the
scheduler reserves the acknowledgment at `s + k1` for an acknowledgment
timing offset `k1` chosen such that that slot is uplink-capable (§4.5). -/
def srb0_pucch_slot (cfg : cell_slot_cfg) (pdsch_slot : Nat) : Option Nat :=
  (dci_1_0_k1_values.find? (fun k1 => cfg.ul_enabled (pdsch_slot + k1))).map
    (fun k1 => pdsch_slot + k1)

/-! ## SRB0 scheduler: MCS ceiling and per-slot capacity
Modelled from the spec (§4.5, §8 scenarios): per invocation, each fallback UE
with pending bootstrap bytes is attempted; the non-segmentable payload is
granted only if it fits within one transport block under the configured
maximum MSG4 MCS index and within the grid capacity still free in this slot;
a failed attempt leaves the request pending and consumes nothing. -/

/-- Modelled from the spec: the scheduler parameters relevant to the MSG4
MCS ceiling — the maximum MSG4 MCS index (`scheduler_ue_expert_config::
max_msg4_mcs`) and the transport-block capacity in bytes achievable at a
given MCS index (abstracted transport-block-size table, nondecreasing in the
MCS index in reality; only the value at the ceiling is used). -/
structure srb0_sched_cfg where
  max_msg4_mcs : Nat
  tbs_bytes : Nat → Nat

/-- Modelled from the spec: per-UE fallback scheduling state — the UE index
and the pending bytes of its SRB0 bootstrap message. -/
structure srb0_ue where
  ue_index : Nat
  pending_srb0 : Nat
  deriving DecidableEq, Repr

/-- Modelled from the spec: a pending SRB0 payload structurally fits within
one transport block exactly when it is no larger than the transport-block
capacity at the maximum MSG4 MCS index. -/
def srb0_fits (c : srb0_sched_cfg) (payload : Nat) : Bool :=
  payload ≤ c.tbs_bytes c.max_msg4_mcs

/-- Modelled from the spec: one invocation of the SRB0 scheduler (§4.5) over
the fallback UEs in order, with `cap` bytes of grid capacity available in
this slot: a UE with pending bytes is granted (its index emitted, its pending
bytes cleared, the capacity reduced) only if the payload structurally fits
under the MCS ceiling and fits in the remaining capacity; otherwise its
request remains pending. Returns the granted UE indices and updated UEs. -/
def srb0_run_slot (c : srb0_sched_cfg) : Nat → List srb0_ue → List Nat × List srb0_ue
  | _, [] => ([], [])
  | cap, u :: rest =>
    if 0 < u.pending_srb0 ∧ srb0_fits c u.pending_srb0 = true ∧ u.pending_srb0 ≤ cap then
      let r := srb0_run_slot c (cap - u.pending_srb0) rest
      (u.ue_index :: r.1, { u with pending_srb0 := 0 } :: r.2)
    else
      let r := srb0_run_slot c cap rest
      (r.1, u :: r.2)

/-- Modelled from the spec: a run of the SRB0 scheduler over consecutive
slots, one invocation per slot with the given per-slot capacities; returns
the per-slot lists of granted UE indices. -/
def srb0_run (c : srb0_sched_cfg) : List Nat → List srb0_ue → List (List Nat)
  | [], _ => []
  | cap :: caps, ues =>
    let r := srb0_run_slot c cap ues
    r.1 :: srb0_run c caps r.2

/-! ## Concrete instances used by the witnesses -/

/-- Concrete cell slot-format configuration for witnesses: a TDD-like pattern
with downlink on slots `s % 10 < 6`, uplink on slots `s % 10 ≥ 7`, and a
CSI-RS slot at `s % 40 = 12`. -/
def cfgW : cell_slot_cfg :=
  ⟨fun s => s % 10 < 6, fun s => s % 10 ≥ 7, fun s => s % 40 == 12⟩

/-- Concrete DL logical channel manager state for witnesses: 100 pending
SRB0 bytes, 40 pending SRB1 bytes, contention-resolution CE pending. -/
def mgrW : dl_logical_channel_manager :=
  ⟨fun l => if l = 0 then 100 else if l = 1 then 40 else 0, true⟩

/-- Concrete SRB0 scheduler configuration for witnesses: MCS ceiling 0 and a
transport-block capacity of `10 + mcs` bytes. -/
def schedCfgW : srb0_sched_cfg :=
  ⟨0, fun m => 10 + m⟩

/-- Concrete UE configuration for the reconfiguration witness: cells at DU
indices 0 and 1. -/
def recfgW : ue_configuration :=
  ⟨[⟨0, 5⟩, ⟨1, 7⟩]⟩

/-- Concrete prior cell array for the reconfiguration witness: cells present
at DU indices 0 and 2 (index 2 is absent from `recfgW`). -/
def cellsW : Nat → Option ue_cell :=
  fun i => if i = 0 then some ⟨0, 1⟩ else if i = 2 then some ⟨2, 9⟩ else none

end SrsranModel

namespace SrsranModel

/-! ## Helper lemmas -/

theorem subtract_harq_ul_bytes_eq_sub (l : List Nat) (p : Nat) :
    subtract_harq_ul_bytes l p = p - l.sum := by
  induction l generalizing p with
  | nil => simp [subtract_harq_ul_bytes]
  | cons h t ih =>
    unfold subtract_harq_ul_bytes
    by_cases hp : p = 0
    · simp [hp]
    · rw [if_neg hp, ih]
      simp only [List.sum_cons]
      omega

theorem find_from_eq_some {p : Nat → Bool} {s fuel t : Nat}
    (h : find_from p s fuel = some t) :
    s ≤ t ∧ p t = true ∧ ∀ u, s ≤ u → u < t → p u = false := by
  induction fuel generalizing s with
  | zero => simp [find_from] at h
  | succ n ih =>
    unfold find_from at h
    by_cases hp : p s = true
    · rw [if_pos hp] at h
      obtain rfl : s = t := by injection h
      exact ⟨le_refl _, hp, fun u h1 h2 => absurd h1 (by omega)⟩
    · rw [if_neg hp] at h
      obtain ⟨h1, h2, h3⟩ := ih h
      refine ⟨by omega, h2, fun u hu1 hu2 => ?_⟩
      rcases Nat.eq_or_lt_of_le hu1 with rfl | hlt
      · exact Bool.not_eq_true _ ▸ (by simpa using hp)
      · exact h3 u hlt hu2

/-! ## C2: PDSCH CRB limits -/

/-- Claim C2 (counterexample): the claim's description of `get_ra_crb_limits`
fails on the code. With active BWP CRBs `[5, 10)`, CORESET start CRB 0, no
coreset0 and initial BWP CRBs `[0, 8)`, the code returns `[0, 8)` — length 8,
exceeding the claimed clip bound `min(active width, initial width) =
min(5, 8) = 5`; the claim's formula gives `[0, 5)`. -/
theorem ra_crb_limits_claim_false :
    get_ra_crb_limits dci_dl_format.f1_0 ⟨⟨0, 8⟩, none⟩ ⟨⟨5, 10⟩, none⟩ ⟨true⟩ ⟨0⟩ ≠
      get_ra_crb_limits_claimed dci_dl_format.f1_0 ⟨⟨0, 8⟩, none⟩ ⟨⟨5, 10⟩, none⟩ ⟨true⟩ ⟨0⟩ := by
  decide

/-- Claim C2 (amended): `get_ra_crb_limits` returns the full active-BWP CRB
interval, except when the DCI format is 1_0 on a common search space, in
which case the returned interval starts at the CORESET's start CRB and its
length is clipped to the coreset0 width when coreset0 is configured, else the
initial bandwidth-part width (the length before clipping being the distance
from the CORESET start CRB to the end of the active bandwidth part). -/
theorem ra_crb_limits_code_characterization (dci_fmt : dci_dl_format)
    (init_dl_bwp active_dl_bwp : bwp_downlink_common)
    (ss_cfg : search_space_configuration) (cs_cfg : coreset_configuration) :
    get_ra_crb_limits dci_fmt init_dl_bwp active_dl_bwp ss_cfg cs_cfg =
      if dci_fmt = dci_dl_format.f1_0 ∧ ss_cfg.common_search_space = true then
        ⟨cs_cfg.coreset_start_crb,
          cs_cfg.coreset_start_crb +
            min (active_dl_bwp.crbs.stop - cs_cfg.coreset_start_crb)
              (match init_dl_bwp.coreset0_crbs with
               | some c0 => c0.length
               | none => init_dl_bwp.crbs.length)⟩
      else
        active_dl_bwp.crbs := by
  unfold get_ra_crb_limits
  by_cases h : dci_fmt = dci_dl_format.f1_0 ∧ ss_cfg.common_search_space = true
  · rw [if_pos h, if_pos h]
    cases init_dl_bwp.coreset0_crbs <;>
      simp [crb_interval.resize, crb_interval.length]
  · rw [if_neg h, if_neg h]

/-! ## C8: reconfiguration with zero cells fails fast -/

/-- Claim C8: `ue::handle_reconfiguration_request` (and therefore UE
construction, which invokes it) fails its assertion exactly when the supplied
configuration contains zero cells; with at least one configured cell the
operation completes. -/
theorem reconfiguration_requires_nonempty_cells (cfg : ue_configuration)
    (cells : Nat → Option ue_cell) :
    (handle_reconfiguration_request cfg cells = none ↔ cfg.cells = []) ∧
    (ue_create_cells cfg = none ↔ cfg.cells = []) := by
  have key : ∀ cs : Nat → Option ue_cell,
      handle_reconfiguration_request cfg cs = none ↔ cfg.cells = [] := by
    intro cs
    unfold handle_reconfiguration_request
    by_cases h : cfg.cells.length = 0
    · simp [h, List.length_eq_zero.mp h]
    · simp only [if_neg h]
      constructor
      · intro hc
        exact absurd hc (by simp)
      · intro hc
        exact absurd (by simp [hc] : cfg.cells.length = 0) h
  exact ⟨key cells, key (fun _ => none)⟩

/-! ## C9: pending UL new-transmission bytes -/

/-- Claim C9: `ue::pending_ul_newtx_bytes` returns the total UL
logical-channel pending bytes minus, cell by cell, the UL bytes already
waiting HARQ acknowledgment, each subtraction clamped at zero (equivalently,
truncated subtraction of their sum); and whenever that difference is zero but
a scheduling request is pending it returns exactly the 512-byte SR grant
size. -/
theorem pending_ul_newtx_bytes_clamped_sum (st : ue_ul_state) :
    pending_ul_newtx_bytes st =
      (if 0 < st.ul_pending_total - st.harq_ul_bytes_waiting_ack.sum then
        st.ul_pending_total - st.harq_ul_bytes_waiting_ack.sum
      else if st.has_pending_sr = true then 512 else 0) := by
  unfold pending_ul_newtx_bytes
  rw [subtract_harq_ul_bytes_eq_sub]
  rfl

/-! ## C1 and C10: the fallback transport block -/

theorem build_fallback_characterization (mgr : dl_logical_channel_manager)
    (tb_size_bytes ce : Nat)
    (hce : ce = (allocate_ue_con_res_id_mac_ce ⟨[]⟩ mgr tb_size_bytes).1) :
    (build_dl_fallback_transport_block_info mgr ⟨[]⟩ tb_size_bytes).2.1.subpdus =
        ((if mgr.con_res_id_pending = true ∧ ue_con_res_id_ce_size ≤ tb_size_bytes then
          [(LCID_UE_CON_RES_ID, ue_con_res_id_ce_size)] else []) ++
        (if 0 < mgr.pending LCID_SRB0 ∧ mgr.pending LCID_SRB0 ≤ tb_size_bytes - ce then
          [(LCID_SRB0, mgr.pending LCID_SRB0)]
         else if min (mgr.pending LCID_SRB1) (tb_size_bytes - ce) = 0 then []
         else [(LCID_SRB1, min (mgr.pending LCID_SRB1) (tb_size_bytes - ce))])) ∧
    (build_dl_fallback_transport_block_info mgr ⟨[]⟩ tb_size_bytes).1 =
        ce + (if 0 < mgr.pending LCID_SRB0 ∧ mgr.pending LCID_SRB0 ≤ tb_size_bytes - ce then
          mgr.pending LCID_SRB0 else min (mgr.pending LCID_SRB1) (tb_size_bytes - ce)) ∧
    (build_dl_fallback_transport_block_info mgr ⟨[]⟩ tb_size_bytes).2.2.pending LCID_SRB0 =
        (if 0 < mgr.pending LCID_SRB0 ∧ mgr.pending LCID_SRB0 ≤ tb_size_bytes - ce then 0
         else mgr.pending LCID_SRB0) := by
  unfold build_dl_fallback_transport_block_info
  by_cases hcond : mgr.con_res_id_pending = true ∧ ue_con_res_id_ce_size ≤ tb_size_bytes
  · have hceq : allocate_ue_con_res_id_mac_ce ⟨[]⟩ mgr tb_size_bytes =
        (ue_con_res_id_ce_size, ⟨[(LCID_UE_CON_RES_ID, ue_con_res_id_ce_size)]⟩,
          { mgr with con_res_id_pending := false }) := by
      unfold allocate_ue_con_res_id_mac_ce
      rw [if_pos hcond]
      rfl
    have hcee : ce = ue_con_res_id_ce_size := by rw [hce, hceq]
    subst hcee
    clear hce
    rw [hceq, if_pos hcond]
    simp only [dl_logical_channel_manager.has_pending_bytes,
      dl_logical_channel_manager.pending_bytes, allocate_mac_sdus,
      decide_eq_true_eq, ge_iff_le]
    split_ifs <;>
      refine ⟨?_, ?_, ?_⟩ <;>
      simp_all [LCID_SRB0, LCID_SRB1, LCID_UE_CON_RES_ID] <;> omega
  · have hceq : allocate_ue_con_res_id_mac_ce ⟨[]⟩ mgr tb_size_bytes =
        (0, ⟨[]⟩, mgr) := by
      unfold allocate_ue_con_res_id_mac_ce
      rw [if_neg hcond]
    have hcee : ce = 0 := by rw [hce, hceq]
    subst hcee
    clear hce
    rw [hceq, if_neg hcond]
    simp only [dl_logical_channel_manager.has_pending_bytes,
      dl_logical_channel_manager.pending_bytes, allocate_mac_sdus,
      decide_eq_true_eq, ge_iff_le]
    split_ifs <;>
      refine ⟨?_, ?_, ?_⟩ <;>
      simp_all [LCID_SRB0, LCID_SRB1, LCID_UE_CON_RES_ID] <;> omega

/-- Claim C1: for a UE whose SRB0 channel has `B > 0` pending bytes,
`ue::build_dl_fallback_transport_block_info` includes SRB0 data in the block
if and only if the budget remaining after the mandatory contention-resolution
MAC CE is at least `B`; when included, all `B` bytes are included (a single
unsegmented SDU of exactly `B` bytes, draining the SRB0 pending counter), so
the transport-block byte size is at least `B`; when it does not fit, SRB0 is
skipped in favor of SRB1. -/
theorem fallback_srb0_all_or_nothing (mgr : dl_logical_channel_manager)
    (tb_size_bytes B ce : Nat)
    (hB : 0 < B) (hp : mgr.pending LCID_SRB0 = B)
    (hce : ce = (allocate_ue_con_res_id_mac_ce ⟨[]⟩ mgr tb_size_bytes).1) :
    ((∃ s, (LCID_SRB0, s) ∈
        (build_dl_fallback_transport_block_info mgr ⟨[]⟩ tb_size_bytes).2.1.subpdus) ↔
      B ≤ tb_size_bytes - ce) ∧
    (B ≤ tb_size_bytes - ce →
      (LCID_SRB0, B) ∈
        (build_dl_fallback_transport_block_info mgr ⟨[]⟩ tb_size_bytes).2.1.subpdus ∧
      (build_dl_fallback_transport_block_info mgr ⟨[]⟩ tb_size_bytes).2.2.pending LCID_SRB0 = 0 ∧
      B ≤ tb_size_bytes) ∧
    (tb_size_bytes - ce < B →
      (∀ s, (LCID_SRB0, s) ∉
        (build_dl_fallback_transport_block_info mgr ⟨[]⟩ tb_size_bytes).2.1.subpdus) ∧
      (build_dl_fallback_transport_block_info mgr ⟨[]⟩ tb_size_bytes).1 =
        ce + min (mgr.pending LCID_SRB1) (tb_size_bytes - ce)) := by
  obtain ⟨hsub, htot, hpend⟩ := build_fallback_characterization mgr tb_size_bytes ce hce
  subst hp
  by_cases hfit : mgr.pending LCID_SRB0 ≤ tb_size_bytes - ce
  · have hc : 0 < mgr.pending LCID_SRB0 ∧
        mgr.pending LCID_SRB0 ≤ tb_size_bytes - ce := ⟨hB, hfit⟩
    have hmem : (LCID_SRB0, mgr.pending LCID_SRB0) ∈
        (build_dl_fallback_transport_block_info mgr ⟨[]⟩ tb_size_bytes).2.1.subpdus := by
      rw [hsub]
      simp only [hc, if_true]
      exact List.mem_append_right _ (by simp)
    have hzero :
        (build_dl_fallback_transport_block_info mgr ⟨[]⟩ tb_size_bytes).2.2.pending
          LCID_SRB0 = 0 := by
      rw [hpend]
      simp [hc]
    refine ⟨⟨fun _ => hfit, fun _ => ⟨mgr.pending LCID_SRB0, hmem⟩⟩,
      fun _ => ⟨hmem, hzero, by omega⟩,
      fun hlt => absurd hfit (by omega)⟩
  · have hnot : ¬(0 < mgr.pending LCID_SRB0 ∧
        mgr.pending LCID_SRB0 ≤ tb_size_bytes - ce) := fun hc => hfit hc.2
    rw [hsub, htot]
    simp only [if_neg hnot]
    have habs : ∀ s, (LCID_SRB0, s) ∉
        ((if mgr.con_res_id_pending = true ∧ ue_con_res_id_ce_size ≤ tb_size_bytes then
          [(LCID_UE_CON_RES_ID, ue_con_res_id_ce_size)] else []) ++
         (if min (mgr.pending LCID_SRB1) (tb_size_bytes - ce) = 0 then []
          else [(LCID_SRB1, min (mgr.pending LCID_SRB1) (tb_size_bytes - ce))])) := by
      intro s hs
      rcases List.mem_append.mp hs with h | h <;> revert h <;> split_ifs <;>
        simp [LCID_SRB0, LCID_SRB1, LCID_UE_CON_RES_ID]
    exact ⟨⟨fun hex => absurd hex.choose_spec (habs hex.choose), fun h => absurd h hfit⟩,
      fun h => absurd h hfit, fun _ => ⟨habs, by simp⟩⟩

/-- Witness for claim C1: at 100 pending SRB0 bytes and a 120-byte budget,
the hypotheses hold and SRB0 is fully included. -/
theorem fallback_srb0_all_or_nothing_witness :
    0 < 100 ∧ mgrW.pending LCID_SRB0 = 100 ∧
    (7 : Nat) = (allocate_ue_con_res_id_mac_ce ⟨[]⟩ mgrW 120).1 ∧
    (100 ≤ 120 - 7 ∧
      (LCID_SRB0, 100) ∈
        (build_dl_fallback_transport_block_info mgrW ⟨[]⟩ 120).2.1.subpdus ∧
      (build_dl_fallback_transport_block_info mgrW ⟨[]⟩ 120).2.2.pending LCID_SRB0 = 0) :=
  ⟨by decide, by decide, by decide, by decide,
    ((fallback_srb0_all_or_nothing mgrW 120 100 7 (by decide) (by decide)
      (by decide)).2.1 (by decide)).1,
    ((fallback_srb0_all_or_nothing mgrW 120 100 7 (by decide) (by decide)
      (by decide)).2.1 (by decide)).2.1⟩

/-- Claim C10: a transport block built by
`ue::build_dl_fallback_transport_block_info` never contains both SRB0 and
SRB1 data: when the entire pending SRB0 PDU fits in the remaining budget only
SRB0 is served (besides the contention-resolution MAC CE), otherwise only
SRB1 is served. -/
theorem fallback_tb_never_mixes_srb0_srb1 (mgr : dl_logical_channel_manager)
    (tb_size_bytes : Nat) :
    ¬((∃ s, (LCID_SRB0, s) ∈
          (build_dl_fallback_transport_block_info mgr ⟨[]⟩ tb_size_bytes).2.1.subpdus) ∧
      (∃ s, (LCID_SRB1, s) ∈
          (build_dl_fallback_transport_block_info mgr ⟨[]⟩ tb_size_bytes).2.1.subpdus)) := by
  rintro ⟨⟨s0, h0⟩, ⟨s1, h1⟩⟩
  obtain ⟨hsub, -, -⟩ := build_fallback_characterization mgr tb_size_bytes _ rfl
  rw [hsub] at h0 h1
  revert h0 h1
  split_ifs <;>
    simp [LCID_SRB0, LCID_SRB1, LCID_UE_CON_RES_ID]

/-! ## C7: reconfiguration never removes serving cells -/

theorem foldl_apply_cell_cfg_untouched (l : List ue_cell_cfg)
    (cells : Nat → Option ue_cell) (i : Nat)
    (h : ∀ c ∈ l, c.cell_index ≠ i) :
    (l.foldl apply_cell_cfg cells) i = cells i := by
  induction l generalizing cells with
  | nil => rfl
  | cons c t ih =>
    rw [List.foldl_cons, ih _ (fun d hd => h d (List.mem_cons_of_mem _ hd))]
    unfold apply_cell_cfg
    rw [if_neg (fun he => h c (List.mem_cons_self _ _) he.symm)]

theorem foldl_apply_cell_cfg_configured (l : List ue_cell_cfg)
    (cells : Nat → Option ue_cell) (c : ue_cell_cfg) (hc : c ∈ l)
    (hnd : (l.map ue_cell_cfg.cell_index).Nodup) :
    (l.foldl apply_cell_cfg cells) c.cell_index =
      some (match cells c.cell_index with
            | none => ue_cell.create c
            | some inst => inst.reconfigure c) := by
  induction l generalizing cells with
  | nil => cases hc
  | cons d t ih =>
    rw [List.map_cons, List.nodup_cons] at hnd
    rcases List.mem_cons.mp hc with rfl | hmem
    · rw [List.foldl_cons,
        foldl_apply_cell_cfg_untouched t _ c.cell_index
          (fun e he hei => hnd.1 (hei ▸ List.mem_map_of_mem ue_cell_cfg.cell_index he))]
      unfold apply_cell_cfg
      rw [if_pos rfl]
      cases cells c.cell_index <;> rfl
    · rw [List.foldl_cons, ih _ hmem hnd.2]
      have hne : d.cell_index ≠ c.cell_index :=
        fun he => hnd.1 (he ▸ List.mem_map_of_mem ue_cell_cfg.cell_index hmem)
      unfold apply_cell_cfg
      rw [if_neg (fun he => hne he.symm)]

/-- Claim C7: a reconfiguration applied by `ue::handle_reconfiguration_request`
never removes a previously created UE cell — every DU cell index absent from
the new configuration keeps exactly its previous state — while every cell
index named in the new configuration ends up present: created from its
configuration if it was absent, reconfigured in place if it was present. -/
theorem reconfiguration_never_removes_cells (cfg : ue_configuration)
    (cells cells' : Nat → Option ue_cell)
    (hnd : (cfg.cells.map ue_cell_cfg.cell_index).Nodup)
    (hrun : handle_reconfiguration_request cfg cells = some cells') :
    (∀ i, cfg.contains_cell i = false → cells' i = cells i) ∧
    (∀ c ∈ cfg.cells,
      cells' c.cell_index =
        some (match cells c.cell_index with
              | none => ue_cell.create c
              | some inst => inst.reconfigure c)) := by
  have hcells' : cells' = cfg.cells.foldl apply_cell_cfg cells := by
    unfold handle_reconfiguration_request at hrun
    by_cases h : cfg.cells.length = 0
    · rw [if_pos h] at hrun
      cases hrun
    · rw [if_neg h] at hrun
      exact (Option.some.inj hrun).symm
  subst hcells'
  constructor
  · intro i hi
    refine foldl_apply_cell_cfg_untouched _ _ _ (fun c hc hci => ?_)
    have hct : cfg.contains_cell i = true := by
      unfold ue_configuration.contains_cell
      rw [List.any_eq_true]
      exact ⟨c, hc, by simp [hci]⟩
    rw [hct] at hi
    cases hi
  · intro c hc
    exact foldl_apply_cell_cfg_configured cfg.cells cells c hc hnd

/-- Witness for claim C7: reconfiguring with cells 0 (already present,
reconfigured) and 1 (new, created) leaves the unlisted cell 2 untouched. -/
theorem reconfiguration_never_removes_cells_witness :
    (recfgW.cells.map ue_cell_cfg.cell_index).Nodup ∧
    (∀ i, recfgW.contains_cell i = false →
      (recfgW.cells.foldl apply_cell_cfg cellsW) i = cellsW i) :=
  ⟨by decide,
    (reconfiguration_never_removes_cells recfgW cellsW
      (recfgW.cells.foldl apply_cell_cfg cellsW) (by decide) rfl).1⟩

/-! ## C3: stale allocation markers cleared exactly past the lookahead -/

theorem slot_dist_nonneg_bounds {period a b : Nat} (hper : 0 < period)
    (h : 0 ≤ slot_dist period a b) :
    slot_dist period a b < period := by
  have hp : (0 : Int) < (period : Int) := by exact_mod_cast hper
  have h1 : 0 ≤ ((a : Int) - (b : Int)) % (period : Int) :=
    Int.emod_nonneg _ (by omega)
  have h2 : ((a : Int) - (b : Int)) % (period : Int) < (period : Int) :=
    Int.emod_lt_of_pos _ hp
  simp only [slot_dist] at h ⊢
  split at h <;> split <;> omega

theorem to_unsigned32_gt_iff {d : Int} {k : Nat} (hd : 0 ≤ d) (hlt : d < 2 ^ 32)
    (hk : k < 2 ^ 32) :
    to_unsigned32 d > k ↔ d > (k : Int) := by
  unfold to_unsigned32
  rw [Int.emod_eq_of_lt hd hlt]
  omega

theorem ue_cell_slot_indication_componentwise (period maxK0 maxK2 sl_tx : Nat)
    (pd pu : Option Nat) :
    ue_cell_slot_indication period maxK0 maxK2 sl_tx ⟨pd, pu⟩ =
      ⟨(match pd with
        | none => none
        | some last =>
          if to_unsigned32 (slot_dist period sl_tx last) > maxK0 then none else some last),
       (match pu with
        | none => none
        | some last =>
          if slot_dist period sl_tx last > (maxK2 : Int) then none else some last)⟩ := by
  cases pd <;> cases pu <;>
    simp only [ue_cell_slot_indication] <;> split_ifs <;> simp_all

/-- Claim C3: after `ue::slot_indication(sl_tx)`, for a cell with a valid
`last_pdsch_allocated_slot` (satisfying the code's sanity precondition that
`sl_tx` is not before it), the marker is cleared exactly when the
wrap-around-safe slot distance `sl_tx - last` exceeds the DL lookahead
constant; `last_pusch_allocated_slot` is cleared exactly when the distance
exceeds the UL lookahead constant (no precondition needed, the comparison is
signed); a marker that is not cleared keeps its value. This holds for all
slot values below the wrap period, hence across wraparound. -/
theorem slot_indication_clears_stale_exactly (period maxK0 maxK2 sl_tx : Nat)
    (st : ue_cell_alloc_state)
    (hper : 0 < period) (hper32 : period ≤ 2 ^ 32) (hk0 : maxK0 < 2 ^ 32)
    (hsanity : ∀ last, st.last_pdsch_allocated_slot = some last →
      0 ≤ slot_dist period sl_tx last) :
    (∀ last, st.last_pdsch_allocated_slot = some last →
      (((ue_cell_slot_indication period maxK0 maxK2 sl_tx st).last_pdsch_allocated_slot
          = none ↔ slot_dist period sl_tx last > (maxK0 : Int)) ∧
        (¬slot_dist period sl_tx last > (maxK0 : Int) →
          (ue_cell_slot_indication period maxK0 maxK2 sl_tx st).last_pdsch_allocated_slot
            = some last))) ∧
    (∀ last, st.last_pusch_allocated_slot = some last →
      (((ue_cell_slot_indication period maxK0 maxK2 sl_tx st).last_pusch_allocated_slot
          = none ↔ slot_dist period sl_tx last > (maxK2 : Int)) ∧
        (¬slot_dist period sl_tx last > (maxK2 : Int) →
          (ue_cell_slot_indication period maxK0 maxK2 sl_tx st).last_pusch_allocated_slot
            = some last))) := by
  obtain ⟨pd, pu⟩ := st
  rw [ue_cell_slot_indication_componentwise]
  constructor
  · intro last hlast
    obtain rfl : pd = some last := hlast
    have h0 := hsanity last rfl
    have hlt : slot_dist period sl_tx last < 2 ^ 32 := by
      have := slot_dist_nonneg_bounds hper h0
      omega
    have hiff := to_unsigned32_gt_iff h0 hlt hk0
    by_cases hgt : to_unsigned32 (slot_dist period sl_tx last) > maxK0
    · simp [hgt, hiff.mp hgt]
    · have hnn : ¬slot_dist period sl_tx last > (maxK0 : Int) :=
        fun hc => hgt (hiff.mpr hc)
      simp [hgt, hnn]
  · intro last hlast
    obtain rfl : pu = some last := hlast
    by_cases hgt : slot_dist period sl_tx last > (maxK2 : Int)
    · simp [hgt]
    · simp [hgt]

/-- Witness for claim C3: period 10240, lookahead constants 15, current slot
4 and last-allocation slot 10230 — a wraparound pair at distance 14, which is
retained (14 does not exceed 15). -/
theorem slot_indication_clears_stale_exactly_witness :
    0 < 10240 ∧ 10240 ≤ 2 ^ 32 ∧ 15 < 2 ^ 32 ∧
    0 ≤ slot_dist 10240 4 10230 ∧
    ((ue_cell_slot_indication 10240 15 15 4
        ⟨some 10230, some 10230⟩).last_pdsch_allocated_slot = none ↔
      slot_dist 10240 4 10230 > (15 : Int)) :=
  ⟨by decide, by decide, by decide, by decide,
    ((slot_indication_clears_stale_exactly 10240 15 15 4 ⟨some 10230, some 10230⟩
      (by decide) (by decide) (by decide)
      (fun last h => by
        obtain rfl : (10230 : Nat) = last := Option.some.inj h
        decide)).1 10230 rfl).1⟩

/-! ## C6: SRB0 allocations respect the duplex configuration -/

/-- Claim C6: under a TDD configuration, the SRB0 scheduler never commits a
PDCCH/PDSCH allocation on a slot that is not downlink-capable, and the PUCCH
HARQ acknowledgment slot it reserves is always uplink-capable (and one
always exists for a committed allocation). -/
theorem srb0_alloc_respects_duplex (cfg : cell_slot_cfg) (t nof fuel s : Nat)
    (h : srb0_sched_alloc_slot cfg t nof fuel = some s) :
    cfg.dl_enabled s = true ∧
    srb0_pucch_slot cfg s ≠ none ∧
    (∀ p, srb0_pucch_slot cfg s = some p → cfg.ul_enabled p = true) := by
  obtain ⟨-, hp, -⟩ := find_from_eq_some h
  rw [Bool.and_eq_true] at hp
  have helig := hp.2
  unfold srb0_slot_eligible at helig
  rw [Bool.and_eq_true, Bool.and_eq_true] at helig
  obtain ⟨⟨hk1, hdl⟩, -⟩ := helig
  refine ⟨hdl, ?_, ?_⟩
  · unfold srb0_pucch_slot
    unfold k1_falls_on_ul at hk1
    obtain ⟨k1, hk1mem, hul⟩ := List.any_eq_true.mp hk1
    cases hfind : dci_1_0_k1_values.find? (fun k1 => cfg.ul_enabled (s + k1)) with
    | none => exact absurd hul (by simpa using List.find?_eq_none.mp hfind k1 hk1mem)
    | some k => simp [hfind]
  · intro p hpk
    unfold srb0_pucch_slot at hpk
    cases hfind : dci_1_0_k1_values.find? (fun k1 => cfg.ul_enabled (s + k1)) with
    | none => rw [hfind] at hpk; cases hpk
    | some k =>
      rw [hfind] at hpk
      obtain rfl : s + k = p := by simpa using hpk
      simpa using List.find?_some hfind

/-- Witness for claim C6: in the TDD-like configuration `cfgW` the modelled
scheduler commits at slot 13, a downlink slot whose acknowledgment lands on
uplink slot 17. -/
theorem srb0_alloc_respects_duplex_witness :
    srb0_sched_alloc_slot cfgW 8 2 100 = some 13 ∧
    cfgW.dl_enabled 13 = true ∧
    (∀ p, srb0_pucch_slot cfgW 13 = some p → cfgW.ul_enabled p = true) :=
  ⟨by decide,
    (srb0_alloc_respects_duplex cfgW 8 2 100 13 (by decide)).1,
    (srb0_alloc_respects_duplex cfgW 8 2 100 13 (by decide)).2.2⟩

/-! ## C5: a structurally unfit SRB0 payload is never granted -/

theorem srb0_run_slot_index_invariant (c : srb0_sched_cfg) (cap : Nat)
    (ues : List srb0_ue) :
    (srb0_run_slot c cap ues).2.map srb0_ue.ue_index = ues.map srb0_ue.ue_index ∧
    ∀ i ∈ (srb0_run_slot c cap ues).1, i ∈ ues.map srb0_ue.ue_index := by
  induction ues generalizing cap with
  | nil => simp [srb0_run_slot]
  | cons u rest ih =>
    unfold srb0_run_slot
    split_ifs with hcond
    · refine ⟨by simp [(ih (cap - u.pending_srb0)).1], ?_⟩
      intro i hi
      rcases List.mem_cons.mp hi with rfl | hi'
      · simp
      · simp only [List.map_cons, List.mem_cons]
        exact Or.inr ((ih (cap - u.pending_srb0)).2 i hi')
    · refine ⟨by simp [(ih cap).1], ?_⟩
      intro i hi
      simp only [List.map_cons, List.mem_cons]
      exact Or.inr ((ih cap).2 i hi)

theorem srb0_run_slot_cons (c : srb0_sched_cfg) (cap : Nat) (u : srb0_ue)
    (rest : List srb0_ue) :
    srb0_run_slot c cap (u :: rest) =
      if 0 < u.pending_srb0 ∧ srb0_fits c u.pending_srb0 = true ∧
          u.pending_srb0 ≤ cap then
        (u.ue_index :: (srb0_run_slot c (cap - u.pending_srb0) rest).1,
          { u with pending_srb0 := 0 } :: (srb0_run_slot c (cap - u.pending_srb0) rest).2)
      else
        ((srb0_run_slot c cap rest).1, u :: (srb0_run_slot c cap rest).2) := rfl

theorem srb0_run_cons (c : srb0_sched_cfg) (cap : Nat) (caps : List Nat)
    (ues : List srb0_ue) :
    srb0_run c (cap :: caps) ues =
      (srb0_run_slot c cap ues).1 :: srb0_run c caps (srb0_run_slot c cap ues).2 := rfl

theorem srb0_run_slot_unfit_transparent (c : srb0_sched_cfg) (u : srb0_ue)
    (hu : srb0_fits c u.pending_srb0 = false) :
    ∀ (l1 l2 : List srb0_ue) (cap : Nat),
      ∃ l1' l2',
        srb0_run_slot c cap (l1 ++ u :: l2) =
          ((srb0_run_slot c cap (l1 ++ l2)).1, l1' ++ u :: l2') ∧
        (srb0_run_slot c cap (l1 ++ l2)).2 = l1' ++ l2' := by
  intro l1
  induction l1 with
  | nil =>
    intro l2 cap
    refine ⟨[], (srb0_run_slot c cap l2).2, ?_, rfl⟩
    simp only [List.nil_append]
    rw [srb0_run_slot_cons,
      if_neg (fun hc => by rw [hu] at hc; exact Bool.false_ne_true hc.2.1)]
  | cons v t ih =>
    intro l2 cap
    by_cases hv : 0 < v.pending_srb0 ∧ srb0_fits c v.pending_srb0 = true ∧
        v.pending_srb0 ≤ cap
    · obtain ⟨l1', l2', h1, h2⟩ := ih l2 (cap - v.pending_srb0)
      refine ⟨{ v with pending_srb0 := 0 } :: l1', l2', ?_, ?_⟩
      · rw [List.cons_append, List.cons_append, srb0_run_slot_cons,
          srb0_run_slot_cons, if_pos hv, if_pos hv, h1, h2]
        simp
      · rw [List.cons_append, srb0_run_slot_cons, if_pos hv, h2]
        rw [List.cons_append]
    · obtain ⟨l1'', l2'', h1', h2'⟩ := ih l2 cap
      refine ⟨v :: l1'', l2'', ?_, ?_⟩
      · rw [List.cons_append, List.cons_append, srb0_run_slot_cons,
          srb0_run_slot_cons, if_neg hv, if_neg hv, h1', h2']
        simp
      · rw [List.cons_append, srb0_run_slot_cons, if_neg hv, h2']
        rw [List.cons_append]

theorem srb0_run_unfit_transparent (c : srb0_sched_cfg) (u : srb0_ue)
    (hu : srb0_fits c u.pending_srb0 = false) :
    ∀ (caps : List Nat) (l1 l2 : List srb0_ue),
      srb0_run c caps (l1 ++ u :: l2) = srb0_run c caps (l1 ++ l2) := by
  intro caps
  induction caps with
  | nil => intro l1 l2; rfl
  | cons cap caps ih =>
    intro l1 l2
    obtain ⟨l1', l2', h1, h2⟩ := srb0_run_slot_unfit_transparent c u hu l1 l2 cap
    simp only [srb0_run]
    rw [h1, h2]
    exact congrArg _ (ih l1' l2')

theorem srb0_run_grants_subset (c : srb0_sched_cfg) :
    ∀ (caps : List Nat) (ues : List srb0_ue), ∀ g ∈ srb0_run c caps ues,
      ∀ i ∈ g, i ∈ ues.map srb0_ue.ue_index := by
  intro caps
  induction caps with
  | nil => intro ues g hg; cases hg
  | cons cap caps ih =>
    intro ues g hg
    simp only [srb0_run] at hg
    rcases List.mem_cons.mp hg with rfl | hg'
    · exact (srb0_run_slot_index_invariant c cap ues).2
    · intro i hi
      have hstep := ih ((srb0_run_slot c cap ues).2) g hg' i hi
      rwa [(srb0_run_slot_index_invariant c cap ues).1] at hstep

/-- Claim C5: a fallback UE whose pending SRB0 payload exceeds the
transport-block capacity at the configured maximum MSG4 MCS index is never
granted at any slot of the run, and its presence leaves every other UE's
per-slot grants exactly unchanged. -/
theorem unfit_srb0_ue_never_granted (c : srb0_sched_cfg) (u : srb0_ue)
    (l1 l2 : List srb0_ue) (caps : List Nat)
    (hunfit : c.tbs_bytes c.max_msg4_mcs < u.pending_srb0)
    (hfresh : u.ue_index ∉ (l1 ++ l2).map srb0_ue.ue_index) :
    (∀ g ∈ srb0_run c caps (l1 ++ u :: l2), u.ue_index ∉ g) ∧
    srb0_run c caps (l1 ++ u :: l2) = srb0_run c caps (l1 ++ l2) := by
  have hu : srb0_fits c u.pending_srb0 = false := by
    unfold srb0_fits
    simp only [decide_eq_false_iff_not]
    omega
  have heq := srb0_run_unfit_transparent c u hu caps l1 l2
  refine ⟨?_, heq⟩
  rw [heq]
  intro g hg hmem
  exact hfresh (srb0_run_grants_subset c caps (l1 ++ l2) g hg u.ue_index hmem)

/-- Witness for claim C5: a 350-byte payload under a 10-byte capacity at the
MCS ceiling is never granted over two slots and does not disturb the other
UE's grants. -/
theorem unfit_srb0_ue_never_granted_witness :
    schedCfgW.tbs_bytes schedCfgW.max_msg4_mcs < 350 ∧
    ((1 : Nat) ∉ (([⟨0, 8⟩] ++ []) : List srb0_ue).map srb0_ue.ue_index) ∧
    srb0_run schedCfgW [20, 20] ([⟨0, 8⟩] ++ (⟨1, 350⟩ : srb0_ue) :: []) =
      srb0_run schedCfgW [20, 20] ([⟨0, 8⟩] ++ []) :=
  ⟨by decide, by decide,
    (unfit_srb0_ue_never_granted schedCfgW ⟨1, 350⟩ [⟨0, 8⟩] [] [20, 20]
      (by decide) (by decide)).2⟩

/-! ## C4: forward scheduling commits at exactly the expected slot -/

theorem dl_count_zero (cfg : cell_slot_cfg) (a : Nat) : dl_count cfg a 0 = 0 := rfl

theorem dl_count_succ (cfg : cell_slot_cfg) (a n : Nat) :
    dl_count cfg a (n + 1) =
      dl_count cfg a n + (if cfg.dl_enabled (a + n) = true then 1 else 0) := by
  unfold dl_count
  rw [List.range_succ, List.countP_append]
  simp [List.countP_cons]

theorem dl_count_add (cfg : cell_slot_cfg) (a m : Nat) :
    ∀ n, dl_count cfg a (m + n) = dl_count cfg a m + dl_count cfg (a + m) n := by
  intro n
  induction n with
  | zero => simp [dl_count_zero]
  | succ k ih =>
    have h1 : m + (k + 1) = (m + k) + 1 := by omega
    rw [h1, dl_count_succ, ih, dl_count_succ, ← Nat.add_assoc a m k]
    omega

theorem dl_count_succ_left (cfg : cell_slot_cfg) (a n : Nat) :
    dl_count cfg a (n + 1) =
      (if cfg.dl_enabled a = true then 1 else 0) + dl_count cfg (a + 1) n := by
  have h := dl_count_add cfg a 1 n
  rw [Nat.add_comm 1 n] at h
  rw [h]
  have h1 : dl_count cfg a 1 = (if cfg.dl_enabled a = true then 1 else 0) := by
    rw [dl_count_succ, dl_count_zero]
    simp
  rw [h1]

theorem dl_count_mono (cfg : cell_slot_cfg) (a : Nat) {m n : Nat} (h : m ≤ n) :
    dl_count cfg a m ≤ dl_count cfg a n := by
  obtain ⟨k, rfl⟩ := Nat.exists_eq_add_of_le h
  rw [dl_count_add]
  omega

theorem dl_count_eq_zero (cfg : cell_slot_cfg) (a n : Nat)
    (h : ∀ u, a ≤ u → u < a + n → cfg.dl_enabled u = false) :
    dl_count cfg a n = 0 := by
  unfold dl_count
  rw [List.countP_eq_zero]
  intro i hi
  rw [List.mem_range] at hi
  simp [h (a + i) (by omega) (by omega)]

theorem busy_advance_succ_eq (cfg : cell_slot_cfg) (s cnt target fuel : Nat) :
    busy_advance cfg s cnt target (fuel + 1) =
      (if (if cfg.dl_enabled (s + 1) = true then cnt + 1 else cnt) = target then
        some (s + 1)
      else
        busy_advance cfg (s + 1)
          (if cfg.dl_enabled (s + 1) = true then cnt + 1 else cnt) target fuel) := rfl

theorem busy_advance_char (cfg : cell_slot_cfg) :
    ∀ (fuel s cnt e target : Nat),
      busy_advance cfg s cnt target fuel = some e → cnt < target →
      s < e ∧ cfg.dl_enabled e = true ∧
      cnt + dl_count cfg (s + 1) (e - s) = target ∧
      (∀ u, s ≤ u → u < e → cnt + dl_count cfg (s + 1) (u - s) < target) := by
  intro fuel
  induction fuel with
  | zero =>
    intro s cnt e target h hlt
    cases h
  | succ f ih =>
    intro s cnt e target h hlt
    rw [busy_advance_succ_eq] at h
    by_cases hdl : cfg.dl_enabled (s + 1) = true
    · rw [if_pos hdl] at h
      by_cases hstop : cnt + 1 = target
      · rw [if_pos hstop] at h
        obtain rfl : s + 1 = e := Option.some.inj h
        refine ⟨by omega, hdl, ?_, ?_⟩
        · have h1 : s + 1 - s = 1 := by omega
          rw [h1, dl_count_succ, dl_count_zero]
          simpa [hdl] using hstop
        · intro u hu1 hu2
          have h2 : u - s = 0 := by omega
          rw [h2, dl_count_zero]
          omega
      · rw [if_neg hstop] at h
        have hlt' : cnt + 1 < target := by omega
        obtain ⟨h1, h2, h3, h4⟩ := ih (s + 1) (cnt + 1) e target h hlt'
        refine ⟨by omega, h2, ?_, ?_⟩
        · have he : e - s = (e - (s + 1)) + 1 := by omega
          rw [he, dl_count_succ_left, if_pos hdl]
          omega
        · intro u hu1 hu2
          rcases Nat.eq_or_lt_of_le hu1 with heq | hu'
          · have h5 : u - s = 0 := by omega
            rw [h5, dl_count_zero]
            omega
          · have hu3 : u - s = (u - (s + 1)) + 1 := by omega
            rw [hu3, dl_count_succ_left, if_pos hdl]
            have := h4 u (by omega) hu2
            omega
    · rw [if_neg hdl] at h
      rw [if_neg (by omega : ¬cnt = target)] at h
      obtain ⟨h1, h2, h3, h4⟩ := ih (s + 1) cnt e target h hlt
      refine ⟨by omega, h2, ?_, ?_⟩
      · have he : e - s = (e - (s + 1)) + 1 := by omega
        rw [he, dl_count_succ_left, if_neg hdl]
        omega
      · intro u hu1 hu2
        rcases Nat.eq_or_lt_of_le hu1 with heq | hu'
        · have h5 : u - s = 0 := by omega
          rw [h5, dl_count_zero]
          omega
        · have hu3 : u - s = (u - (s + 1)) + 1 := by omega
          rw [hu3, dl_count_succ_left, if_neg hdl]
          have := h4 u (by omega) hu2
          omega

theorem srb0_slot_eligible_dl {cfg : cell_slot_cfg} {s : Nat}
    (h : srb0_slot_eligible cfg s = true) : cfg.dl_enabled s = true := by
  unfold srb0_slot_eligible at h
  rw [Bool.and_eq_true, Bool.and_eq_true] at h
  exact h.1.2

theorem grid_busy_false_of_count_ge {cfg : cell_slot_cfg} {t nof u : Nat}
    (h : nof ≤ dl_count cfg t (u - t)) :
    grid_busy cfg t nof u = false := by
  unfold grid_busy
  rw [decide_eq_false (by omega : ¬dl_count cfg t (u - t) < nof)]
  simp

theorem grid_busy_true_of {cfg : cell_slot_cfg} {t nof u : Nat}
    (h1 : t ≤ u) (h2 : cfg.dl_enabled u = true)
    (h3 : dl_count cfg t (u - t) < nof) :
    grid_busy cfg t nof u = true := by
  simp [grid_busy, h1, h2, h3]

theorem cnt_from_cand (cfg : cell_slot_cfg) {t cand : Nat} (htc : t ≤ cand)
    (hzero : dl_count cfg t (cand - t) = 0) (hdlc : cfg.dl_enabled cand = true)
    {u : Nat} (hu : cand < u) :
    dl_count cfg t (u - t) = 1 + dl_count cfg (cand + 1) (u - (cand + 1)) := by
  have h1 : u - t = (cand - t) + (u - cand) := by omega
  rw [h1, dl_count_add, hzero]
  have h2 : t + (cand - t) = cand := by omega
  rw [h2]
  have h3 : u - cand = (u - (cand + 1)) + 1 := by omega
  rw [h3, dl_count_succ_left, if_pos hdlc]
  omega

/-- Claim C4: when the grid is occupied for `nof` downlink slots starting at
the buffer-update slot `t`, the slot at which the modelled SRB0 scheduler
commits its allocation (the first non-busy, downlink-capable, non-CSI-RS slot
whose acknowledgment can land on an uplink slot — and the only slot at which
a grant appears) is exactly the slot predicted by the test helper
`get_next_candidate_alloc_slot`, computed from the first downlink slot at or
after `t`. -/
theorem ahead_scheduling_alloc_slot_matches (cfg : cell_slot_cfg)
    (t nof fuel1 fuel2 fuel3 cand s_exp s_mdl : Nat)
    (hnof : 0 < nof)
    (hcand : get_next_dl_slot cfg fuel1 t = some cand)
    (hexp : get_next_candidate_alloc_slot cfg fuel2 cand nof = some s_exp)
    (hmdl : srb0_sched_alloc_slot cfg t nof fuel3 = some s_mdl) :
    s_mdl = s_exp := by
  unfold get_next_dl_slot at hcand
  obtain ⟨htc, hdlc, hminc⟩ := find_from_eq_some hcand
  unfold get_next_candidate_alloc_slot at hexp
  rw [if_neg (by omega : ¬nof = 0)] at hexp
  cases hba : busy_advance cfg cand 0 nof fuel2 with
  | none =>
    rw [hba] at hexp
    cases hexp
  | some e =>
    rw [hba] at hexp
    obtain ⟨hee, helig, hmin_exp⟩ := find_from_eq_some hexp
    obtain ⟨hce, hdle, hcount, hbelow⟩ := busy_advance_char cfg fuel2 cand 0 e nof hba hnof
    unfold srb0_sched_alloc_slot at hmdl
    obtain ⟨hts, hpred, hminm⟩ := find_from_eq_some hmdl
    simp only [Bool.and_eq_true, Bool.not_eq_true'] at hpred
    obtain ⟨hnotbusy, helig_m⟩ := hpred
    have hzero : dl_count cfg t (cand - t) = 0 :=
      dl_count_eq_zero cfg t (cand - t) (fun v hv1 hv2 => hminc v hv1 (by omega))
    have hcnte : dl_count cfg t (e - t) = nof := by
      rw [cnt_from_cand cfg htc hzero hdlc hce]
      have h4 : e - cand = (e - (cand + 1)) + 1 := by omega
      rw [h4, dl_count_succ] at hcount
      have h5 : cand + 1 + (e - (cand + 1)) = e := by omega
      rw [h5, if_pos hdle] at hcount
      omega
    have hFB : ∀ u, e ≤ u → nof ≤ dl_count cfg t (u - t) := by
      intro u hu
      calc nof = dl_count cfg t (e - t) := hcnte.symm
        _ ≤ dl_count cfg t (u - t) := dl_count_mono cfg t (by omega)
    have hFA : ∀ u, t ≤ u → u < e → cfg.dl_enabled u = true →
        dl_count cfg t (u - t) < nof := by
      intro u h1 h2 h3
      rcases Nat.lt_trichotomy u cand with hlt | rfl | hgt
      · exact absurd h3 (by simp [hminc u h1 hlt])
      · rw [hzero]
        omega
      · rw [cnt_from_cand cfg htc hzero hdlc hgt]
        have hb := hbelow u (by omega) h2
        have h4 : u - cand = (u - (cand + 1)) + 1 := by omega
        rw [h4, dl_count_succ] at hb
        have h5 : cand + 1 + (u - (cand + 1)) = u := by omega
        rw [h5, if_pos h3] at hb
        omega
    have hts_exp : t ≤ s_exp := by omega
    have hpred_exp :
        (!grid_busy cfg t nof s_exp && srb0_slot_eligible cfg s_exp) = true := by
      rw [grid_busy_false_of_count_ge (hFB s_exp hee), helig]
      rfl
    rcases Nat.lt_trichotomy s_mdl s_exp with hlt | heq | hgt
    · exfalso
      rcases Nat.lt_or_ge s_mdl e with hme | hme
      · have hdl_m := srb0_slot_eligible_dl helig_m
        have hbusy := grid_busy_true_of hts hdl_m (hFA s_mdl hts hme hdl_m)
        rw [hbusy] at hnotbusy
        cases hnotbusy
      · have hfalse := hmin_exp s_mdl hme hlt
        rw [helig_m] at hfalse
        cases hfalse
    · exact heq
    · exfalso
      have hfalse := hminm s_exp hts_exp hgt
      rw [hpred_exp] at hfalse
      cases hfalse

/-- Witness for claim C4: in the TDD-like configuration `cfgW` with the
buffer update at slot 8 and the grid busy for 2 downlink slots, both the test
helper and the modelled scheduler land on slot 13. -/
theorem ahead_scheduling_alloc_slot_matches_witness :
    0 < 2 ∧
    get_next_dl_slot cfgW 100 8 = some 10 ∧
    get_next_candidate_alloc_slot cfgW 100 10 2 = some 13 ∧
    srb0_sched_alloc_slot cfgW 8 2 100 = some 13 ∧
    (13 : Nat) = 13 :=
  ⟨by decide, by decide, by decide, by decide,
    ahead_scheduling_alloc_slot_matches cfgW 8 2 100 100 100 10 13 13
      (by decide) (by decide) (by decide) (by decide)⟩

end SrsranModel
